import Mathlib

/-!
Verification of the analytical transform pipeline of the IND320 dashboard.

The numerical core of the repository (DCT-based SPC outlier detection,
LOF anomaly detection, sliding-window Pearson correlation, the Tabler-style
snow-drift transport model, and the spectrogram front end) is embedded
shallowly: Python floats are idealised as real numbers, NaN-able columns
become `Option ℝ`, dataframes become lists of rows, and exceptions become
`Except String`.
-/

noncomputable section

open Real

/-- Python `int(x)` on a float: truncation toward zero. -/
def pyInt (x : ℝ) : ℤ := if 0 ≤ x then ⌊x⌋ else ⌈x⌉

/-- Python float `x % m`: remainder with the sign of the divisor,
`x - m * floor (x / m)`. -/
def pymod (x m : ℝ) : ℝ := x - m * ⌊x / m⌋

/-! ### Snow-drift transport model (`apps/pages/08_Snow_Drift.py`) -/

/-- `compute_Qupot(ws, dt=3600)`: potential transport
`np.sum((ws ** 3.8) * dt) / 233_847`. -/
def compute_Qupot (ws : List ℝ) (dt : ℝ := 3600) : ℝ :=
  (ws.map fun u => u ^ (3.8 : ℝ) * dt).sum / 233847

/-- `compute_sector_index(direction)`:
`int(((direction + 11.25) % 360) // 22.5)`. -/
def compute_sector_index (direction : ℝ) : ℤ :=
  ⌊pymod (direction + 11.25) 360 / 22.5⌋

/-- `compute_sector_transport(ws, wd, dt=3600)`: accumulate potential
transport into 16 compass-sector buckets. -/
def compute_sector_transport (ws wd : List ℝ) (dt : ℝ := 3600) : List ℝ :=
  (List.zip ws wd).foldl
    (fun sectors p =>
      let idx := (compute_sector_index p.2).toNat
      sectors.set idx (sectors.getD idx 0 + p.1 ^ (3.8 : ℝ) * dt / 233847))
    (List.replicate 16 0)

/-- `compute_snow_transport(T, F, theta, SWE, ws)`: returns
`(Qt, Qupot, Qspot, Srwe)`. -/
def compute_snow_transport (T F theta SWE : ℝ) (ws : List ℝ) :
    ℝ × ℝ × ℝ × ℝ :=
  let Qupot := compute_Qupot ws
  let Qspot := 0.5 * T * SWE
  let Srwe := theta * SWE
  let Qinf := if Qupot > Qspot then 0.5 * T * Srwe else Qupot
  let Qt := Qinf * (1 - (0.14 : ℝ) ^ (F / T))
  (Qt, Qupot, Qspot, Srwe)

/-- A calendar timestamp, as far as the season bucketing inspects it. -/
structure Timestamp where
  year : ℤ
  month : ℕ
  day : ℕ

/-- The season column: `lambda t: t.year if t.month >= 7 else t.year - 1`. -/
def seasonOf (t : Timestamp) : ℤ :=
  if 7 ≤ t.month then t.year else t.year - 1

/-! ### LOF anomaly detection (`src/analysis/anomaly_detection.py`) -/

/-- Drop rows whose value channel is NaN (`df.dropna(subset=[...])`). -/
def dropnaRows (df : List (ℤ × Option ℝ)) : List (ℤ × ℝ) :=
  df.filterMap fun p => p.2.map fun v => (p.1, v)

/-- `df.sort_values("time")`: stable sort of the rows by timestamp. -/
def sortByTime (l : List (ℤ × ℝ)) : List (ℤ × ℝ) :=
  l.mergeSort fun a b => decide (a.1 ≤ b.1)

/-- Result frame of `detect_precipitation_anomalies`, with the neighbour
count handed to `LocalOutlierFactor` recorded alongside. -/
structure LOFResult where
  time : List ℤ
  precipitation : List ℝ
  anomaly : List Bool
  n_neighbors : ℤ

/-- `detect_precipitation_anomalies(df, outlier_prop=0.01)`.  The
`LocalOutlierFactor(...).fit_predict` library call is abstracted as the
function argument `lofFitPredict` (neighbour count, contamination, values ↦
label vector, -1 meaning anomaly); everything around it follows the source. -/
def detect_precipitation_anomalies
    (lofFitPredict : ℤ → ℝ → List ℝ → List ℤ)
    (df : List (ℤ × Option ℝ)) (outlier_prop : ℝ) : LOFResult :=
  let cleaned := sortByTime (dropnaRows df)
  let vals := cleaned.map Prod.snd
  let n_neighbors := max 10 (pyInt ((vals.length : ℝ) * outlier_prop * 5))
  let preds := lofFitPredict n_neighbors outlier_prop vals
  { time := cleaned.map Prod.fst
    precipitation := vals
    anomaly := preds.map fun p => decide (p = -1)
    n_neighbors := n_neighbors }

/-! ### Basic facts used by the claims on this page -/

theorem pymod_eq_fract (x m : ℝ) (hm : m ≠ 0) :
    pymod x m = m * Int.fract (x / m) := by
  unfold pymod
  rw [Int.fract, mul_sub, mul_div_cancel₀ _ hm]

theorem length_foldl_set (l : List (ℝ × ℝ)) (step : List ℝ → ℝ × ℝ → List ℝ)
    (hstep : ∀ acc p, (step acc p).length = acc.length) :
    ∀ acc : List ℝ, (l.foldl step acc).length = acc.length := by
  induction l with
  | nil => intro acc; rfl
  | cons hd tl ih => intro acc; rw [List.foldl_cons, ih, hstep]

theorem max_ten_pyInt_eq_max_ten_floor (x : ℝ) :
    max 10 (pyInt x) = max 10 ⌊x⌋ := by
  unfold pyInt
  by_cases h : 0 ≤ x
  · rw [if_pos h]
  · rw [if_neg h]
    push_neg at h
    have hc : ⌈x⌉ ≤ 0 := Int.ceil_le.mpr (by exact_mod_cast h.le)
    have hf : ⌊x⌋ ≤ 0 := (Int.floor_le_ceil x).trans hc
    rw [max_eq_left (by omega), max_eq_left (by omega)]

/-- Claim C3: `compute_snow_transport` returns exactly
`Qupot = sum(ws^3.8 * 3600) / 233847`, `Qspot = 0.5*T*SWE`,
`Srwe = theta*SWE`, `Qinf = 0.5*T*Srwe` when `Qupot > Qspot` else `Qupot`,
and `Qt = Qinf * (1 - 0.14^(F/T))`. -/
theorem C3_snow_transport_formulas (T F theta SWE : ℝ) (ws : List ℝ) :
    compute_snow_transport T F theta SWE ws =
      ((if (ws.map fun u => u ^ (3.8 : ℝ) * 3600).sum / 233847 > 0.5 * T * SWE
          then 0.5 * T * (theta * SWE)
          else (ws.map fun u => u ^ (3.8 : ℝ) * 3600).sum / 233847) *
          (1 - (0.14 : ℝ) ^ (F / T)),
        (ws.map fun u => u ^ (3.8 : ℝ) * 3600).sum / 233847,
        0.5 * T * SWE,
        theta * SWE) := by
  unfold compute_snow_transport compute_Qupot
  rfl

/-- Claim C4: the season column assigns a timestamp to season `t.year`
when `t.month ≥ 7` and to season `t.year - 1` otherwise; in particular
2020-06-30 belongs to season 2019 and 2020-07-01 to season 2020. -/
theorem C4_season_bucketing :
    (∀ t : Timestamp, (7 ≤ t.month → seasonOf t = t.year) ∧
      (t.month < 7 → seasonOf t = t.year - 1)) ∧
    seasonOf ⟨2020, 6, 30⟩ = 2019 ∧ seasonOf ⟨2020, 7, 1⟩ = 2020 := by
  refine ⟨fun t => ⟨fun h => ?_, fun h => ?_⟩, by decide, by decide⟩
  · unfold seasonOf; rw [if_pos h]
  · unfold seasonOf; rw [if_neg (by omega)]

theorem C4_season_bucketing_witness :
    seasonOf ⟨2021, 8, 15⟩ = 2021 ∧ seasonOf ⟨2021, 3, 15⟩ = 2020 := by
  constructor
  · exact (C4_season_bucketing.1 ⟨2021, 8, 15⟩).1 (by decide)
  · have h := (C4_season_bucketing.1 ⟨2021, 3, 15⟩).2 (by decide)
    rw [h]; decide

/-- Claim C9: `detect_precipitation_anomalies` fits `LocalOutlierFactor`
with neighbour count `max(10, floor(N * p * 5))`, `N` being the number of
non-NaN precipitation values. -/
theorem C9_lof_neighbor_count (lof : ℤ → ℝ → List ℝ → List ℤ)
    (df : List (ℤ × Option ℝ)) (p : ℝ) :
    (detect_precipitation_anomalies lof df p).n_neighbors =
      max 10 ⌊((dropnaRows df).length : ℝ) * p * 5⌋ := by
  unfold detect_precipitation_anomalies
  have hlen : ((sortByTime (dropnaRows df)).map Prod.snd).length
      = (dropnaRows df).length := by
    rw [List.length_map]
    exact (List.mergeSort_perm _ _).length_eq
  simp only [hlen]
  exact max_ten_pyInt_eq_max_ten_floor _

/-- Claim C10: `compute_sector_index` always lands in `[0, 15]`, so the
per-sector accumulation in `compute_sector_transport` stays inside its
16-element sector list. -/
theorem C10_sector_index_in_range :
    (∀ d : ℝ, 0 ≤ compute_sector_index d ∧ compute_sector_index d ≤ 15) ∧
    ∀ ws wd : List ℝ, (compute_sector_transport ws wd).length = 16 := by
  constructor
  · intro d
    have h360 : (360 : ℝ) ≠ 0 := by norm_num
    have hrw : pymod (d + 11.25) 360 / 22.5
        = 16 * Int.fract ((d + 11.25) / 360) := by
      rw [pymod_eq_fract _ _ h360]; ring
    have hf0 : 0 ≤ Int.fract ((d + 11.25) / 360) := Int.fract_nonneg _
    have hf1 : Int.fract ((d + 11.25) / 360) < 1 := Int.fract_lt_one _
    unfold compute_sector_index
    rw [hrw]
    constructor
    · exact Int.floor_nonneg.mpr (by positivity)
    · have hlt : (16 : ℝ) * Int.fract ((d + 11.25) / 360) < ((16 : ℤ) : ℝ) := by
        push_cast; nlinarith
      have := Int.floor_lt.mpr hlt
      omega
  · intro ws wd
    unfold compute_sector_transport
    rw [length_foldl_set _ _ (fun acc p => by simp [List.length_set])]
    simp

/-! ### DCT smoothing and the SPC outlier detector
(`src/analysis/anomaly_detection.py`) -/

/-- Scaling factors of `scipy.fftpack.dct(..., norm="ortho")` (type II) and
its inverse (type III): `sqrt(1/N)` for the DC coefficient, `sqrt(2/N)`
otherwise. -/
def dctScale (N k : ℕ) : ℝ :=
  if k = 0 then Real.sqrt (1 / N) else Real.sqrt (2 / N)

/-- The DCT-II/DCT-III basis angle `π (2n+1) k / (2N)`. -/
def dctAngle (N n k : ℕ) : ℝ := π * (2 * n + 1) * k / (2 * N)

/-- `scipy.fftpack.dct(x, norm="ortho")`: orthonormal DCT-II. -/
def dctII (x : List ℝ) : List ℝ :=
  (List.range x.length).map fun k =>
    dctScale x.length k *
      ∑ n ∈ Finset.range x.length, x.getD n 0 * Real.cos (dctAngle x.length n k)

/-- `scipy.fftpack.idct(y, norm="ortho")`: orthonormal DCT-III, the inverse
of the orthonormal DCT-II. -/
def idctIII (y : List ℝ) : List ℝ :=
  (List.range y.length).map fun n =>
    ∑ k ∈ Finset.range y.length,
      dctScale y.length k * y.getD k 0 * Real.cos (dctAngle y.length n k)

/-- `lp = coeffs.copy(); lp[k:] = 0`: zero every coefficient at index ≥ k. -/
def lowpassKeep (k : ℕ) (y : List ℝ) : List ℝ :=
  (List.range y.length).map fun i => if i < k then y.getD i 0 else 0

/-- Lines 33-38 of the detector: forward DCT, keep the first
`int(cutoff * n)` coefficients, inverse DCT. -/
def dct_lowpass_smooth (cutoff : ℝ) (x : List ℝ) : List ℝ :=
  idctIII (lowpassKeep (pyInt (cutoff * (x.length : ℝ))).toNat (dctII x))

/-- `np.mean`. -/
def listMean (l : List ℝ) : ℝ := l.sum / l.length

/-- `np.std`: population standard deviation. -/
def listStd (l : List ℝ) : ℝ :=
  Real.sqrt ((l.map fun v => (v - listMean l) ^ 2).sum / l.length)

/-- Result frame of `detect_temperature_outliers`. -/
structure SPCResult where
  time : List ℤ
  temperature : List ℝ
  smoothed : List ℝ
  SATV : List ℝ
  UCL : ℝ
  LCL : ℝ
  outlier : List Bool

/-- The `ValueError` message of the insufficient-data guard. -/
def spcErrorMsg : String := "Not enough data points for SATV/SPC."

/-- `df.dropna(subset=["temperature_2m"]); df.sort_values("time")`. -/
def spcCleaned (df : List (ℤ × Option ℝ)) : List (ℤ × ℝ) :=
  sortByTime (dropnaRows df)

/-- `temps = df["temperature_2m"].to_numpy()` after cleaning. -/
def spcTemps (df : List (ℤ × Option ℝ)) : List ℝ :=
  (spcCleaned df).map Prod.snd

/-- `smoothed = idct(lp, norm="ortho")` for the low-passed coefficients. -/
def spcSmoothed (df : List (ℤ × Option ℝ)) (cutoff : ℝ) : List ℝ :=
  dct_lowpass_smooth cutoff (spcTemps df)

/-- `satv = temps - smoothed`. -/
def spcSATV (df : List (ℤ × Option ℝ)) (cutoff : ℝ) : List ℝ :=
  List.zipWith (fun a b => a - b) (spcTemps df) (spcSmoothed df cutoff)

/-- `UCL = mu + std_thresh * sigma`, computed once on the whole SATV. -/
def spcUCL (df : List (ℤ × Option ℝ)) (cutoff std_thresh : ℝ) : ℝ :=
  listMean (spcSATV df cutoff) + std_thresh * listStd (spcSATV df cutoff)

/-- `LCL = mu - std_thresh * sigma`, computed once on the whole SATV. -/
def spcLCL (df : List (ℤ × Option ℝ)) (cutoff std_thresh : ℝ) : ℝ :=
  listMean (spcSATV df cutoff) - std_thresh * listStd (spcSATV df cutoff)

/-- `detect_temperature_outliers(df, cutoff=0.1, std_thresh=2.0)`:
drop NaN temperatures, sort by time, guard `n < 20`, DCT low-pass smooth,
SATV residual, global SPC limits, flag residuals beyond the limits
(`outliers = (satv > UCL) | (satv < LCL)`). -/
def detect_temperature_outliers (df : List (ℤ × Option ℝ))
    (cutoff std_thresh : ℝ) : Except String SPCResult :=
  if (spcTemps df).length < 20 then Except.error spcErrorMsg
  else
    Except.ok
      { time := (spcCleaned df).map Prod.fst
        temperature := spcTemps df
        smoothed := spcSmoothed df cutoff
        SATV := spcSATV df cutoff
        UCL := spcUCL df cutoff std_thresh
        LCL := spcLCL df cutoff std_thresh
        outlier := (spcSATV df cutoff).map fun s =>
          decide (spcUCL df cutoff std_thresh < s) ||
            decide (s < spcLCL df cutoff std_thresh) }

/-- `outlierCount`: how many rows the detector flags (0 on error). -/
def outlierCount (df : List (ℤ × Option ℝ)) (cutoff std_thresh : ℝ) : ℕ :=
  match detect_temperature_outliers df cutoff std_thresh with
  | Except.ok r => r.outlier.countP id
  | Except.error _ => 0

/-- A 20-row frame with no NaN values, used to instantiate theorems. -/
def wdf20 : List (ℤ × Option ℝ) := List.replicate 20 ((0 : ℤ), some (0 : ℝ))

theorem sum_cos_kernel (N : ℕ) (hN : 0 < N) (j : ℤ) :
    ∑ k ∈ Finset.range N, Real.cos (π * (j : ℝ) * (k : ℝ) / (N : ℝ)) =
      if (2 * (N : ℤ)) ∣ j then (N : ℝ) else if Even j then 0 else 1 := by
  have hNne : (N : ℝ) ≠ 0 := Nat.cast_ne_zero.mpr hN.ne'
  by_cases hdvd : (2 * (N : ℤ)) ∣ j
  · rw [if_pos hdvd]
    obtain ⟨t, rfl⟩ := hdvd
    have hterm : ∀ k ∈ Finset.range N,
        Real.cos (π * ((2 * (N : ℤ) * t : ℤ) : ℝ) * (k : ℝ) / (N : ℝ))
          = 1 := by
      intro k _
      have harg : π * ((2 * (N : ℤ) * t : ℤ) : ℝ) * (k : ℝ) / (N : ℝ)
          = ((t * k : ℤ) : ℝ) * (2 * π) := by
        push_cast
        field_simp
        ring
      rw [harg, Real.cos_int_mul_two_pi]
    rw [Finset.sum_congr rfl hterm]
    simp
  · rw [if_neg hdvd]
    have hz1 : Complex.exp ((π * (j : ℝ) / (N : ℝ) : ℝ) * Complex.I) ≠ 1 := by
      intro heq
      obtain ⟨t, ht⟩ := Complex.exp_eq_one_iff.mp heq
      have h2 : ((π * (j : ℝ) / (N : ℝ) : ℝ) : ℂ) = (t : ℂ) * (2 * (π : ℂ)) := by
        apply mul_right_cancel₀ Complex.I_ne_zero
        rw [ht]; ring
      have h3 : π * (j : ℝ) / (N : ℝ) = (t : ℝ) * (2 * π) := by
        exact_mod_cast h2
      have h4 : π * (j : ℝ) = π * ((2 * (N : ℤ) * t : ℤ) : ℝ) := by
        rw [div_eq_iff hNne] at h3
        push_cast
        linarith [h3]
      have h5 : (j : ℝ) = ((2 * (N : ℤ) * t : ℤ) : ℝ) :=
        mul_left_cancel₀ Real.pi_ne_zero h4
      exact hdvd ⟨t, by exact_mod_cast h5⟩
    have hre : ∀ k : ℕ,
        Real.cos (π * (j : ℝ) * (k : ℝ) / (N : ℝ))
          = ((Complex.exp ((π * (j : ℝ) / (N : ℝ) : ℝ) * Complex.I)) ^ k).re := by
      intro k
      rw [← Complex.exp_nat_mul]
      have harg : (k : ℂ) * (((π * (j : ℝ) / (N : ℝ) : ℝ) : ℂ) * Complex.I)
          = (((k : ℝ) * (π * (j : ℝ) / (N : ℝ)) : ℝ) : ℂ) * Complex.I := by
        push_cast; ring
      rw [harg, Complex.exp_ofReal_mul_I_re]
      congr 1
      ring
    rw [Finset.sum_congr rfl fun k _ => hre k, ← Complex.re_sum,
      geom_sum_eq hz1]
    have hzN : (Complex.exp ((π * (j : ℝ) / (N : ℝ) : ℝ) * Complex.I)) ^ N
        = (-1 : ℂ) ^ j := by
      rw [← Complex.exp_nat_mul]
      have harg : (N : ℂ) * (((π * (j : ℝ) / (N : ℝ) : ℝ) : ℂ) * Complex.I)
          = (j : ℂ) * ((π : ℝ) * Complex.I) := by
        have : ((N : ℕ) : ℂ) ≠ 0 := Nat.cast_ne_zero.mpr hN.ne'
        push_cast
        field_simp
        ring
      rw [harg, Complex.exp_int_mul, Complex.exp_pi_mul_I]
    by_cases hev : Even j
    · rw [if_pos hev]
      have h1 : (Complex.exp ((π * (j : ℝ) / (N : ℝ) : ℝ) * Complex.I)) ^ N
          = 1 := by rw [hzN]; exact hev.neg_one_zpow
      rw [h1]
      simp
    · rw [if_neg hev]
      have hodd : Odd j := Int.not_even_iff_odd.mp hev
      have h1 : (Complex.exp ((π * (j : ℝ) / (N : ℝ) : ℝ) * Complex.I)) ^ N
          = -1 := by rw [hzN]; exact hodd.neg_one_zpow
      rw [h1]
      have hc : (Complex.exp ((π * (j : ℝ) / (N : ℝ) : ℝ) * Complex.I)).re
          = Real.cos (π * (j : ℝ) / (N : ℝ)) := Complex.exp_ofReal_mul_I_re _
      have hs : (Complex.exp ((π * (j : ℝ) / (N : ℝ) : ℝ) * Complex.I)).im
          = Real.sin (π * (j : ℝ) / (N : ℝ)) := Complex.exp_ofReal_mul_I_im _
      have hcne : Real.cos (π * (j : ℝ) / (N : ℝ)) ≠ 1 := by
        intro h1c
        apply hz1
        have hsin : Real.sin (π * (j : ℝ) / (N : ℝ)) = 0 := by
          nlinarith [Real.sin_sq_add_cos_sq (π * (j : ℝ) / (N : ℝ))]
        apply Complex.ext
        · rw [hc, h1c]; rfl
        · rw [hs, hsin]; rfl
      rw [Complex.div_re]
      have hden : Complex.normSq
          (Complex.exp ((π * (j : ℝ) / (N : ℝ) : ℝ) * Complex.I) - 1)
            = 2 - 2 * Real.cos (π * (j : ℝ) / (N : ℝ)) := by
        rw [Complex.normSq_apply, Complex.sub_re, Complex.sub_im, hc, hs,
          Complex.one_re, Complex.one_im]
        nlinarith [Real.sin_sq_add_cos_sq (π * (j : ℝ) / (N : ℝ))]
      rw [hden]
      have hne2 : (2 : ℝ) - 2 * Real.cos (π * (j : ℝ) / (N : ℝ)) ≠ 0 := by
        have := Real.cos_le_one (π * (j : ℝ) / (N : ℝ))
        rcases lt_or_eq_of_le this with hlt | heq1
        · nlinarith
        · exact absurd heq1 hcne
      simp only [Complex.sub_re, Complex.sub_im, hc, hs, Complex.one_re,
        Complex.one_im, Complex.neg_re, Complex.neg_im]
      field_simp
      ring

theorem dct_orthogonal (M n m : ℕ) (hn : n < M + 1) (hm : m < M + 1) :
    ∑ k ∈ Finset.range (M + 1),
      dctScale (M + 1) k ^ 2 *
        (Real.cos (dctAngle (M + 1) n k) * Real.cos (dctAngle (M + 1) m k)) =
      if n = m then 1 else 0 := by
  have hNR : (0 : ℝ) < ((M + 1 : ℕ) : ℝ) := by positivity
  have hNne : ((M + 1 : ℕ) : ℝ) ≠ 0 := ne_of_gt hNR
  have hNne' : (M : ℝ) + 1 ≠ 0 := by positivity
  have hang : ∀ k : ℕ,
      dctScale (M + 1) k ^ 2 *
        (Real.cos (dctAngle (M + 1) n k) * Real.cos (dctAngle (M + 1) m k))
      = dctScale (M + 1) k ^ 2 *
        ((Real.cos (π * (((n : ℤ) - m : ℤ) : ℝ) * (k : ℝ) / ((M + 1 : ℕ) : ℝ)) +
          Real.cos (π * (((n : ℤ) + m + 1 : ℤ) : ℝ) * (k : ℝ) / ((M + 1 : ℕ) : ℝ)))
            / 2) := by
    intro k
    congr 1
    have h1 : dctAngle (M + 1) n k - dctAngle (M + 1) m k
        = π * (((n : ℤ) - m : ℤ) : ℝ) * (k : ℝ) / ((M + 1 : ℕ) : ℝ) := by
      unfold dctAngle; push_cast; field_simp; ring
    have h2 : dctAngle (M + 1) n k + dctAngle (M + 1) m k
        = π * (((n : ℤ) + m + 1 : ℤ) : ℝ) * (k : ℝ) / ((M + 1 : ℕ) : ℝ) := by
      unfold dctAngle; push_cast; field_simp; ring
    rw [← h1, ← h2, Real.cos_sub, Real.cos_add]
    ring
  have hshift : ∀ j : ℤ,
      ∑ i ∈ Finset.range M,
        Real.cos (π * (j : ℝ) * ((i + 1 : ℕ) : ℝ) / ((M + 1 : ℕ) : ℝ))
      = (∑ k ∈ Finset.range (M + 1),
          Real.cos (π * (j : ℝ) * (k : ℝ) / ((M + 1 : ℕ) : ℝ))) - 1 := by
    intro j
    rw [Finset.sum_range_succ'
      (fun k => Real.cos (π * (j : ℝ) * (k : ℝ) / ((M + 1 : ℕ) : ℝ))) M]
    simp
  have hscaleS : ∀ i : ℕ, dctScale (M + 1) (i + 1) ^ 2 = 2 / ((M + 1 : ℕ) : ℝ) := by
    intro i
    rw [dctScale, if_neg (Nat.succ_ne_zero i), Real.sq_sqrt (by positivity)]
  have h0term : dctScale (M + 1) 0 ^ 2 *
      ((Real.cos (π * (((n : ℤ) - m : ℤ) : ℝ) * ((0 : ℕ) : ℝ) / ((M + 1 : ℕ) : ℝ)) +
        Real.cos (π * (((n : ℤ) + m + 1 : ℤ) : ℝ) * ((0 : ℕ) : ℝ) / ((M + 1 : ℕ) : ℝ)))
          / 2)
      = 1 / ((M + 1 : ℕ) : ℝ) := by
    have hs0 : dctScale (M + 1) 0 ^ 2 = 1 / ((M + 1 : ℕ) : ℝ) := by
      rw [dctScale, if_pos rfl, Real.sq_sqrt (by positivity)]
    rw [hs0]
    norm_num
  have hmain : ∑ i ∈ Finset.range M,
      dctScale (M + 1) (i + 1) ^ 2 *
        ((Real.cos (π * (((n : ℤ) - m : ℤ) : ℝ) * ((i + 1 : ℕ) : ℝ) / ((M + 1 : ℕ) : ℝ)) +
          Real.cos (π * (((n : ℤ) + m + 1 : ℤ) : ℝ) * ((i + 1 : ℕ) : ℝ) / ((M + 1 : ℕ) : ℝ)))
            / 2)
      = (1 / ((M + 1 : ℕ) : ℝ)) *
          ((∑ k ∈ Finset.range (M + 1),
            Real.cos (π * (((n : ℤ) - m : ℤ) : ℝ) * (k : ℝ) / ((M + 1 : ℕ) : ℝ))) - 1)
        + (1 / ((M + 1 : ℕ) : ℝ)) *
          ((∑ k ∈ Finset.range (M + 1),
            Real.cos (π * (((n : ℤ) + m + 1 : ℤ) : ℝ) * (k : ℝ) / ((M + 1 : ℕ) : ℝ))) - 1) := by
    rw [← hshift ((n : ℤ) - m), ← hshift ((n : ℤ) + m + 1),
      Finset.mul_sum, Finset.mul_sum, ← Finset.sum_add_distrib]
    refine Finset.sum_congr rfl fun i _ => ?_
    rw [hscaleS i]
    ring
  rw [Finset.sum_congr rfl fun k _ => hang k, Finset.sum_range_succ', h0term, hmain]
  by_cases hnm : n = m
  · subst hnm
    rw [sum_cos_kernel (M + 1) (Nat.succ_pos M) ((n : ℤ) - n),
      sum_cos_kernel (M + 1) (Nat.succ_pos M) ((n : ℤ) + n + 1)]
    rw [if_pos (by simp), if_neg, if_neg, if_pos rfl]
    · field_simp
    · rw [Int.even_iff]; omega
    · intro hd
      have h2 : (2 : ℤ) ∣ ((n : ℤ) + n + 1) :=
        dvd_trans (dvd_mul_right 2 (((M + 1 : ℕ) : ℤ))) hd
      omega
  · rw [if_neg hnm,
      sum_cos_kernel (M + 1) (Nat.succ_pos M) ((n : ℤ) - m),
      sum_cos_kernel (M + 1) (Nat.succ_pos M) ((n : ℤ) + m + 1)]
    have hj1ne : ((n : ℤ) - m) ≠ 0 := by
      intro h0; apply hnm; omega
    have hd1 : ¬(2 * ((M + 1 : ℕ) : ℤ)) ∣ ((n : ℤ) - m) := by
      intro hd
      have h1 := Int.le_of_dvd (abs_pos.mpr hj1ne) ((dvd_abs _ _).mpr hd)
      have h2 : |(n : ℤ) - m| ≤ (M : ℤ) := by
        rw [abs_le]; omega
      have h3 := le_trans h1 h2
      push_cast at h3
      omega
    by_cases hpar : Even ((n : ℤ) - m)
    · have hev2 : ¬Even ((n : ℤ) + m + 1) := by
        rw [Int.even_iff] at hpar ⊢; omega
      have hd2 : ¬(2 * ((M + 1 : ℕ) : ℤ)) ∣ ((n : ℤ) + m + 1) := by
        intro hd
        have h2 : (2 : ℤ) ∣ ((n : ℤ) + m + 1) :=
          dvd_trans (dvd_mul_right 2 (((M + 1 : ℕ) : ℤ))) hd
        rw [Int.even_iff] at hpar
        omega
      rw [if_neg hd1, if_pos hpar, if_neg hd2, if_neg hev2]
      field_simp
      ring
    · have hev2 : Even ((n : ℤ) + m + 1) := by
        rw [Int.even_iff] at hpar ⊢; omega
      have hd2 : ¬(2 * ((M + 1 : ℕ) : ℤ)) ∣ ((n : ℤ) + m + 1) := by
        intro hd
        have h1 := Int.le_of_dvd (by omega) hd
        push_cast at h1
        omega
      rw [if_neg hd1, if_neg hpar, if_neg hd2, if_pos hev2]
      field_simp
      ring

theorem idctIII_dctII (x : List ℝ) : idctIII (dctII x) = x := by
  rcases Nat.eq_zero_or_pos x.length with h0 | hpos
  · have hnil : x = [] := List.eq_nil_of_length_eq_zero h0
    subst hnil
    simp [dctII, idctIII]
  · obtain ⟨M, hM⟩ : ∃ M, x.length = M + 1 := ⟨x.length - 1, by omega⟩
    have hlen : (dctII x).length = x.length := by
      unfold dctII; rw [List.length_map, List.length_range]
    apply List.ext_getElem
    · unfold idctIII
      rw [List.length_map, List.length_range, hlen]
    · intro i h1 h2
      have hiN : i < x.length := h2
      simp only [idctIII, List.getElem_map, List.getElem_range]
      rw [← List.getD_eq_getElem x 0 hiN]
      rw [hlen, hM]
      have hgetD : ∀ k, k < M + 1 → (dctII x).getD k 0
          = dctScale (M + 1) k *
              ∑ n ∈ Finset.range (M + 1),
                x.getD n 0 * Real.cos (dctAngle (M + 1) n k) := by
        intro k hk
        have hk' : k < (dctII x).length := by rw [hlen, hM]; exact hk
        rw [List.getD_eq_getElem _ _ hk']
        simp only [dctII, List.getElem_map, List.getElem_range]
        rw [hM]
      calc ∑ k ∈ Finset.range (M + 1),
            dctScale (M + 1) k * (dctII x).getD k 0 *
              Real.cos (dctAngle (M + 1) i k)
          = ∑ k ∈ Finset.range (M + 1), ∑ n ∈ Finset.range (M + 1),
              dctScale (M + 1) k ^ 2 *
                (Real.cos (dctAngle (M + 1) n k) * Real.cos (dctAngle (M + 1) i k))
                  * x.getD n 0 := by
            refine Finset.sum_congr rfl fun k hk => ?_
            rw [hgetD k (Finset.mem_range.mp hk), Finset.mul_sum, Finset.mul_sum,
              Finset.sum_mul]
            exact Finset.sum_congr rfl fun n _ => by ring
        _ = ∑ n ∈ Finset.range (M + 1), ∑ k ∈ Finset.range (M + 1),
              dctScale (M + 1) k ^ 2 *
                (Real.cos (dctAngle (M + 1) n k) * Real.cos (dctAngle (M + 1) i k))
                  * x.getD n 0 := Finset.sum_comm
        _ = ∑ n ∈ Finset.range (M + 1), (if n = i then (1 : ℝ) else 0) * x.getD n 0 := by
            refine Finset.sum_congr rfl fun n hn => ?_
            rw [← Finset.sum_mul,
              dct_orthogonal M n i (Finset.mem_range.mp hn) (by omega)]
        _ = x.getD i 0 := by
            simp only [ite_mul, one_mul, zero_mul]
            rw [Finset.sum_ite_eq' (Finset.range (M + 1)) i fun n => x.getD n 0,
              if_pos (Finset.mem_range.mpr (by omega))]

theorem dctII_length (x : List ℝ) : (dctII x).length = x.length := by
  unfold dctII; rw [List.length_map, List.length_range]

theorem idctIII_length (y : List ℝ) : (idctIII y).length = y.length := by
  unfold idctIII; rw [List.length_map, List.length_range]

theorem lowpassKeep_length (k : ℕ) (y : List ℝ) :
    (lowpassKeep k y).length = y.length := by
  unfold lowpassKeep; rw [List.length_map, List.length_range]

theorem dct_lowpass_smooth_length (cutoff : ℝ) (x : List ℝ) :
    (dct_lowpass_smooth cutoff x).length = x.length := by
  unfold dct_lowpass_smooth
  rw [idctIII_length, lowpassKeep_length, dctII_length]

theorem lowpassKeep_full (y : List ℝ) : lowpassKeep y.length y = y := by
  apply List.ext_getElem
  · exact lowpassKeep_length _ _
  · intro i h1 h2
    simp only [lowpassKeep, List.getElem_map, List.getElem_range]
    rw [if_pos h2]
    exact List.getD_eq_getElem _ _ h2

theorem sortByTime_length (l : List (ℤ × ℝ)) : (sortByTime l).length = l.length :=
  (List.mergeSort_perm _ _).length_eq

theorem sortByTime_sorted (l : List (ℤ × ℝ)) :
    (sortByTime l).Pairwise fun a b => a.1 ≤ b.1 := by
  have h := @List.sorted_mergeSort (ℤ × ℝ)
    (fun a b => decide (a.1 ≤ b.1))
    (fun a b c hab hbc =>
      decide_eq_true (le_trans (of_decide_eq_true hab) (of_decide_eq_true hbc)))
    (fun a b => by
      rcases le_total a.1 b.1 with h | h
      · simp [h]
      · simp [h])
    l
  exact h.imp fun hab => of_decide_eq_true hab

theorem spcTemps_length (df : List (ℤ × Option ℝ)) :
    (spcTemps df).length = (dropnaRows df).length := by
  unfold spcTemps spcCleaned
  rw [List.length_map, sortByTime_length]

theorem spcSATV_length (df : List (ℤ × Option ℝ)) (cutoff : ℝ) :
    (spcSATV df cutoff).length = (spcTemps df).length := by
  unfold spcSATV spcSmoothed
  rw [List.length_zipWith, dct_lowpass_smooth_length, min_self]

theorem detect_ok (df : List (ℤ × Option ℝ)) (cutoff c : ℝ)
    (h : 20 ≤ (dropnaRows df).length) :
    detect_temperature_outliers df cutoff c = Except.ok
      { time := (spcCleaned df).map Prod.fst
        temperature := spcTemps df
        smoothed := spcSmoothed df cutoff
        SATV := spcSATV df cutoff
        UCL := spcUCL df cutoff c
        LCL := spcLCL df cutoff c
        outlier := (spcSATV df cutoff).map fun s =>
          decide (spcUCL df cutoff c < s) || decide (s < spcLCL df cutoff c) } := by
  unfold detect_temperature_outliers
  rw [if_neg]
  rw [spcTemps_length]
  omega

/-- All-zero 20-sample series, used to instantiate theorems. -/
def zeros20 : List ℝ := List.replicate 20 0

/-- Claim C6: with cutoff fraction 1.0 the low-pass keeps all `N`
coefficients (none are zeroed) and the orthonormal DCT-II followed by
DCT-III reproduces the input exactly. -/
theorem C6_dct_cutoff_one_identity (x : List ℝ) (h : 20 ≤ x.length) :
    lowpassKeep (pyInt (1 * (x.length : ℝ))).toNat (dctII x) = dctII x ∧
    dct_lowpass_smooth 1 x = x := by
  have hk : (pyInt (1 * (x.length : ℝ))).toNat = x.length := by
    unfold pyInt
    rw [if_pos (by positivity), one_mul, Int.floor_natCast, Int.toNat_natCast]
  have hfull : lowpassKeep x.length (dctII x) = dctII x := by
    rw [show x.length = (dctII x).length from (dctII_length x).symm]
    exact lowpassKeep_full _
  refine ⟨by rw [hk]; exact hfull, ?_⟩
  unfold dct_lowpass_smooth
  rw [hk, hfull, idctIII_dctII]

theorem C6_dct_cutoff_one_identity_witness :
    20 ≤ zeros20.length ∧ dct_lowpass_smooth 1 zeros20 = zeros20 :=
  ⟨by decide, (C6_dct_cutoff_one_identity zeros20 (by decide)).2⟩

/-- Claim C1: on a frame with at least 20 non-NaN temperatures the SPC
detector succeeds; it computes SATV as raw minus DCT-smoothed, computes UCL
and LCL as scalar mean ± std_thresh·std of the whole SATV series, flags a
point iff its SATV lies outside `[LCL, UCL]`, and emits rows in
chronological order (a permutation of the cleaned input rows). -/
theorem C1_spc_detector (df : List (ℤ × Option ℝ)) (cutoff c : ℝ)
    (h : 20 ≤ (dropnaRows df).length) :
    ∃ r : SPCResult,
      detect_temperature_outliers df cutoff c = Except.ok r ∧
      r.temperature = (sortByTime (dropnaRows df)).map Prod.snd ∧
      r.SATV = List.zipWith (fun a b => a - b) r.temperature
        (dct_lowpass_smooth cutoff r.temperature) ∧
      r.UCL = listMean r.SATV + c * listStd r.SATV ∧
      r.LCL = listMean r.SATV - c * listStd r.SATV ∧
      (∀ i, i < r.SATV.length →
        (r.outlier.getD i false = true ↔
          r.SATV.getD i 0 ∉ Set.Icc r.LCL r.UCL)) ∧
      r.time.Sorted (· ≤ ·) ∧
      r.time.Perm ((dropnaRows df).map Prod.fst) := by
  refine ⟨_, detect_ok df cutoff c h, rfl, rfl, rfl, rfl, ?_, ?_, ?_⟩
  · intro i hi
    have hi' : i < (spcSATV df cutoff).length := hi
    have hi2 : i < ((spcSATV df cutoff).map fun s =>
        decide (spcUCL df cutoff c < s) ||
          decide (s < spcLCL df cutoff c)).length := by
      rw [List.length_map]; exact hi'
    show ((spcSATV df cutoff).map fun s =>
        decide (spcUCL df cutoff c < s) ||
          decide (s < spcLCL df cutoff c)).getD i false = true ↔ _
    rw [List.getD_eq_getElem _ _ hi2, List.getElem_map,
      List.getD_eq_getElem _ _ hi']
    simp only [Bool.or_eq_true, decide_eq_true_eq, Set.mem_Icc]
    constructor
    · rintro (h1 | h1) ⟨hl, hu⟩
      · exact absurd h1 (not_lt.mpr hu)
      · exact absurd h1 (not_lt.mpr hl)
    · intro hnot
      rcases not_and_or.mp hnot with h1 | h1
      · right; exact not_le.mp h1
      · left; exact not_le.mp h1
  · exact List.Pairwise.map Prod.fst (fun a b hab => hab)
      (sortByTime_sorted (dropnaRows df))
  · exact (List.mergeSort_perm (dropnaRows df) _).map Prod.fst

theorem C1_spc_detector_witness :
    ∃ r : SPCResult, detect_temperature_outliers wdf20 0.1 2 = Except.ok r :=
  (C1_spc_detector wdf20 0.1 2 (by decide)).elim fun r hr => ⟨r, hr.1⟩

/-- Claim C5: for a fixed frame and cutoff, a larger `std_thresh` never
flags more outliers: the control limits widen monotonically. -/
theorem C5_spc_threshold_monotone (df : List (ℤ × Option ℝ))
    (cutoff t1 t2 : ℝ) (h : 20 ≤ (dropnaRows df).length) (ht : t1 ≤ t2) :
    outlierCount df cutoff t2 ≤ outlierCount df cutoff t1 := by
  have hcount : ∀ t : ℝ, outlierCount df cutoff t
      = ((spcSATV df cutoff).map fun s =>
          decide (spcUCL df cutoff t < s) ||
            decide (s < spcLCL df cutoff t)).countP id := by
    intro t
    unfold outlierCount
    rw [detect_ok df cutoff t h]
  rw [hcount t1, hcount t2, List.countP_map, List.countP_map]
  apply List.countP_mono_left
  intro s _ hs
  have hσ : 0 ≤ listStd (spcSATV df cutoff) := Real.sqrt_nonneg _
  have hUCL : spcUCL df cutoff t1 ≤ spcUCL df cutoff t2 := by
    unfold spcUCL; nlinarith
  have hLCL : spcLCL df cutoff t2 ≤ spcLCL df cutoff t1 := by
    unfold spcLCL; nlinarith
  simp only [Function.comp_apply, id_eq, Bool.or_eq_true,
    decide_eq_true_eq] at hs ⊢
  rcases hs with h1 | h1
  · exact Or.inl (lt_of_le_of_lt hUCL h1)
  · exact Or.inr (lt_of_lt_of_le h1 hLCL)

theorem C5_spc_threshold_monotone_witness :
    20 ≤ (dropnaRows wdf20).length ∧ (1 : ℝ) ≤ 2 ∧
      outlierCount wdf20 0.1 2 ≤ outlierCount wdf20 0.1 1 :=
  ⟨by decide, by norm_num,
    C5_spc_threshold_monotone wdf20 0.1 1 2 (by decide) (by norm_num)⟩

/-- Claim C7: the detector raises the explicit insufficient-data error
exactly when fewer than 20 non-NaN temperature values remain, and on
success the output has exactly one row per non-NaN input value (no
truncation, no padding). -/
theorem C7_insufficient_data_guard (df : List (ℤ × Option ℝ)) (cutoff c : ℝ) :
    (detect_temperature_outliers df cutoff c = Except.error spcErrorMsg ↔
      (dropnaRows df).length < 20) ∧
    (20 ≤ (dropnaRows df).length →
      ∃ r : SPCResult,
        detect_temperature_outliers df cutoff c = Except.ok r ∧
        r.time.length = (dropnaRows df).length ∧
        r.temperature.length = (dropnaRows df).length ∧
        r.outlier.length = (dropnaRows df).length) := by
  constructor
  · by_cases hlt : (dropnaRows df).length < 20
    · refine ⟨fun _ => hlt, fun _ => ?_⟩
      unfold detect_temperature_outliers
      rw [if_pos (by rw [spcTemps_length]; exact hlt)]
    · push_neg at hlt
      rw [detect_ok df cutoff c hlt]
      exact ⟨fun habs => absurd habs (by simp), fun habs => absurd habs (by omega)⟩
  · intro h20
    refine ⟨_, detect_ok df cutoff c h20, ?_, spcTemps_length df, ?_⟩
    · show ((spcCleaned df).map Prod.fst).length = _
      unfold spcCleaned
      rw [List.length_map, sortByTime_length]
    · show ((spcSATV df cutoff).map _).length = _
      rw [List.length_map, spcSATV_length, spcTemps_length]

theorem C7_insufficient_data_guard_witness :
    ((detect_temperature_outliers [] 0.1 2 = Except.error spcErrorMsg ↔
      (dropnaRows []).length < 20) ∧
     ∃ r : SPCResult, detect_temperature_outliers wdf20 0.1 2 = Except.ok r ∧
       r.time.length = (dropnaRows wdf20).length ∧
       r.temperature.length = (dropnaRows wdf20).length ∧
       r.outlier.length = (dropnaRows wdf20).length) :=
  ⟨(C7_insufficient_data_guard [] 0.1 2).1,
    (C7_insufficient_data_guard wdf20 0.1 2).2 (by decide)⟩

/-! ### Sliding-window correlation (`apps/pages/Sliding_Window_Correlation.py`) -/

/-- `pd.DataFrame(sub, columns=["m", "e"]).dropna()`: keep the rows where
both channels are present. -/
def validPairs (sub : List (Option ℝ × Option ℝ)) : List (ℝ × ℝ) :=
  sub.filterMap fun p => p.1.bind fun a => p.2.map fun b => (a, b)

/-- Population variance (mean squared deviation), `σ² = Σ(v-mean)²/n`. -/
def listVariance (l : List ℝ) : ℝ :=
  (l.map fun v => (v - listMean l) ^ 2).sum / l.length

/-- `pandas.Series.std()`: sample standard deviation (ddof = 1). -/
def sampleStd (l : List ℝ) : ℝ :=
  Real.sqrt ((l.map fun v => (v - listMean l) ^ 2).sum / ((l.length : ℝ) - 1))

/-- Pearson correlation of a list of pairs,
`Σ(x-x̄)(y-ȳ) / sqrt(Σ(x-x̄)² Σ(y-ȳ)²)` as computed by `pandas.corr`. -/
def pearson (ps : List (ℝ × ℝ)) : ℝ :=
  let xs := ps.map Prod.fst
  let ys := ps.map Prod.snd
  (List.zipWith (fun a b => (a - listMean xs) * (b - listMean ys)) xs ys).sum /
    Real.sqrt ((xs.map fun a => (a - listMean xs) ^ 2).sum *
      (ys.map fun b => (b - listMean ys) ^ 2).sum)

/-- `compute_corr_array(matrix, window)`: NaN-filled array; for each
`i ∈ [window, len)` take `sub = matrix[i-window:i]`, drop NaN rows, and
store the Pearson correlation when `len(dfw) >= 3` and both sample
standard deviations are positive. -/
def compute_corr_array (matrix : List (Option ℝ × Option ℝ)) (window : ℕ) :
    List (Option ℝ) :=
  (List.range matrix.length).map fun i =>
    if window ≤ i then
      let dfw := validPairs ((matrix.drop (i - window)).take window)
      if 3 ≤ dfw.length ∧ 0 < sampleStd (dfw.map Prod.fst) ∧
          0 < sampleStd (dfw.map Prod.snd)
      then some (pearson dfw) else none
    else none

/-- The specification of one window of the rolling correlation: the Pearson
correlation of the valid pairs, undefined (`none`) exactly when fewer than
3 valid pairs remain or either sub-window has zero variance. -/
def specWindowCorr (sub : List (Option ℝ × Option ℝ)) : Option ℝ :=
  let ps := validPairs sub
  if ps.length < 3 ∨ listVariance (ps.map Prod.fst) = 0 ∨
      listVariance (ps.map Prod.snd) = 0
  then none else some (pearson ps)

theorem sum_sq_dev_nonneg (l : List ℝ) :
    0 ≤ (l.map fun v => (v - listMean l) ^ 2).sum := by
  apply List.sum_nonneg
  intro x hx
  obtain ⟨v, _, rfl⟩ := List.mem_map.mp hx
  positivity

theorem sampleStd_pos_iff (l : List ℝ) (h : 2 ≤ l.length) :
    0 < sampleStd l ↔ listVariance l ≠ 0 := by
  have hlen : (1 : ℝ) ≤ (l.length : ℝ) := by
    have : (1 : ℕ) ≤ l.length := by omega
    exact_mod_cast this
  have hden : (0 : ℝ) < (l.length : ℝ) - 1 := by
    have : (2 : ℝ) ≤ (l.length : ℝ) := by exact_mod_cast h
    linarith
  have hlen0 : ((l.length : ℝ)) ≠ 0 := by positivity
  have hssq := sum_sq_dev_nonneg l
  unfold sampleStd listVariance
  rw [Real.sqrt_pos, div_pos_iff]
  constructor
  · rintro (⟨hpos, _⟩ | ⟨_, hneg⟩)
    · intro h0
      rw [div_eq_zero_iff] at h0
      rcases h0 with h0 | h0
      · linarith
      · exact hlen0 h0
    · linarith
  · intro hne
    left
    refine ⟨?_, hden⟩
    rcases lt_or_eq_of_le hssq with hlt | heq
    · exact hlt
    · exfalso
      apply hne
      rw [← heq]
      simp

/-- Claim C2: the rolling-correlation array has the input's length, is NaN
(`none`) below index `window`, and at each `i ≥ window` holds the Pearson
correlation of the trailing `window` samples after dropping NaN pairs,
undefined exactly when fewer than 3 valid pairs remain or either sub-window
has zero variance. -/
theorem C2_sliding_window_correlation (matrix : List (Option ℝ × Option ℝ))
    (window : ℕ) (h : window < matrix.length) :
    (compute_corr_array matrix window).length = matrix.length ∧
    (∀ i, i < window →
      (compute_corr_array matrix window).getD i none = none) ∧
    (∀ i, window ≤ i → i < matrix.length →
      (compute_corr_array matrix window).getD i none =
        specWindowCorr ((matrix.drop (i - window)).take window)) := by
  have hlen : (compute_corr_array matrix window).length = matrix.length := by
    unfold compute_corr_array; rw [List.length_map, List.length_range]
  have hentry : ∀ i, i < matrix.length →
      (compute_corr_array matrix window).getD i none =
        if window ≤ i then
          (if 3 ≤ (validPairs ((matrix.drop (i - window)).take window)).length ∧
              0 < sampleStd ((validPairs ((matrix.drop (i - window)).take window)).map
                Prod.fst) ∧
              0 < sampleStd ((validPairs ((matrix.drop (i - window)).take window)).map
                Prod.snd)
           then some (pearson (validPairs ((matrix.drop (i - window)).take window)))
           else none)
        else none := by
    intro i hi
    have hi' : i < (compute_corr_array matrix window).length := by
      rw [hlen]; exact hi
    rw [List.getD_eq_getElem _ _ hi']
    simp only [compute_corr_array, List.getElem_map, List.getElem_range]
  refine ⟨hlen, ?_, ?_⟩
  · intro i hiw
    rw [hentry i (lt_trans hiw h), if_neg (by omega)]
  · intro i hwi hi
    rw [hentry i hi, if_pos hwi]
    simp only [specWindowCorr]
    generalize validPairs ((matrix.drop (i - window)).take window) = ps
    by_cases hA : 3 ≤ ps.length ∧ 0 < sampleStd (ps.map Prod.fst) ∧
        0 < sampleStd (ps.map Prod.snd)
    · rw [if_pos hA, if_neg]
      push_neg
      obtain ⟨h3, hx, hy⟩ := hA
      have hlx : 2 ≤ (ps.map Prod.fst).length := by rw [List.length_map]; omega
      have hly : 2 ≤ (ps.map Prod.snd).length := by rw [List.length_map]; omega
      exact ⟨by omega, (sampleStd_pos_iff _ hlx).mp hx,
        (sampleStd_pos_iff _ hly).mp hy⟩
    · rw [if_neg hA, if_pos]
      by_cases h3 : 3 ≤ ps.length
      · have hlx : 2 ≤ (ps.map Prod.fst).length := by rw [List.length_map]; omega
        have hly : 2 ≤ (ps.map Prod.snd).length := by rw [List.length_map]; omega
        by_cases hx : 0 < sampleStd (ps.map Prod.fst)
        · have hy : ¬0 < sampleStd (ps.map Prod.snd) := fun hy => hA ⟨h3, hx, hy⟩
          right; right
          by_contra hvy
          exact hy ((sampleStd_pos_iff _ hly).mpr hvy)
        · right; left
          by_contra hvx
          exact hx ((sampleStd_pos_iff _ hlx).mpr hvx)
      · left; omega

/-- A 2-row aligned matrix with no NaN entries. -/
def wmat2 : List (Option ℝ × Option ℝ) := [(some 0, some 0), (some 0, some 0)]

theorem C2_sliding_window_correlation_witness :
    1 < wmat2.length ∧ (compute_corr_array wmat2 1).length = wmat2.length :=
  ⟨by decide, (C2_sliding_window_correlation wmat2 1 (by decide)).1⟩

/-! ### Spectrogram front end (`src/analysis/plots.py`, `plot_spectrogram`) -/

/-- Sorted distinct observation hours (`groupby("starttime")` keys). -/
def obsTimes (rows : List (ℤ × ℝ)) : List ℤ :=
  ((rows.map Prod.fst).mergeSort fun a b => decide (a ≤ b)).dedup

/-- Sum of values sharing one timestamp (`groupby(...).sum()`). -/
def sumAt (rows : List (ℤ × ℝ)) (t : ℤ) : ℝ :=
  ((rows.filter fun p => decide (p.1 = t)).map Prod.snd).sum

/-- Nearest observed hour at or before `t`. -/
def prevObs (keys : List ℤ) (t : ℤ) : Option ℤ :=
  (keys.filter fun k => decide (k ≤ t)).getLast?

/-- Nearest observed hour at or after `t`. -/
def nextObs (keys : List ℤ) (t : ℤ) : Option ℤ :=
  (keys.filter fun k => decide (t ≤ k)).head?

/-- Value of the aggregated series on the hourly grid: the grouped sum at
observed hours, linear interpolation between neighbouring observed hours
elsewhere (`asfreq("h").interpolate()`). -/
def gridValue (rows : List (ℤ × ℝ)) (t : ℤ) : ℝ :=
  match prevObs (obsTimes rows) t, nextObs (obsTimes rows) t with
  | some a, some b =>
      if a = b then sumAt rows t
      else sumAt rows a +
        ((t - a : ℤ) : ℝ) / ((b - a : ℤ) : ℝ) * (sumAt rows b - sumAt rows a)
  | some a, none => sumAt rows a
  | none, some b => sumAt rows b
  | none, none => 0

/-- The regular hourly series fed into `scipy.signal.spectrogram`. -/
def hourlySeries (rows : List (ℤ × ℝ)) : List ℝ :=
  match obsTimes rows with
  | [] => []
  | t0 :: rest =>
    let tEnd := (t0 :: rest).foldl max t0
    (List.range ((tEnd - t0).toNat + 1)).map fun (k : ℕ) =>
      gridValue rows (t0 + (k : ℤ))

/-- The tapered-cosine (Tukey) window, scipy's default taper with its
default shape parameter 0.25. -/
def tukeyWindow (M : ℕ) (alpha : ℝ) : List ℝ :=
  (List.range M).map fun (nn : ℕ) =>
    let x := (nn : ℝ)
    let L := (M : ℝ) - 1
    if x < alpha * L / 2 then
      (1 + Real.cos (π * (2 * x / (alpha * L) - 1))) / 2
    else if x ≤ L * (1 - alpha / 2) then 1
    else (1 + Real.cos (π * (2 * x / (alpha * L) - 2 / alpha + 1))) / 2

/-- Squared magnitude of the DFT of a real segment at frequency bin `f`. -/
def dftPower (seg : List ℝ) (f : ℕ) : ℝ :=
  Complex.normSq (∑ n ∈ Finset.range seg.length,
    ((seg.getD n 0 : ℝ) : ℂ) *
      Complex.exp (-(2 * π * (f : ℝ) * (n : ℝ) / (seg.length : ℝ) : ℝ) * Complex.I))

/-- One-sided power spectral density of one detrended, Tukey-windowed
segment (scipy defaults: `detrend="constant"`, `scaling="density"`,
`mode="psd"`, `fs = 1`). -/
def segmentPSD (nperseg : ℕ) (seg : List ℝ) : List ℝ :=
  let w := tukeyWindow nperseg 0.25
  let detrended := seg.map fun v => v - listMean seg
  let windowed := List.zipWith (fun a b => a * b) detrended w
  let scale := 1 / (w.map fun v => v ^ 2).sum
  (List.range (nperseg / 2 + 1)).map fun f =>
    if f = 0 ∨ (nperseg % 2 = 0 ∧ f = nperseg / 2)
    then dftPower windowed f * scale
    else 2 * (dftPower windowed f * scale)

/-- Time-frequency result of `plot_spectrogram`: frequency axis in
cycles/hour, segment-centre time offsets in hours, and per-segment power
columns in decibels (`10*log10(Sxx + 1e-10)`). -/
structure SpectrogramResult where
  freqs : List ℝ
  times : List ℝ
  power_db : List (List ℝ)

/-- The `ValueError` message of the spectrogram length guard. -/
def specgramErrMsg : String := "Data length is shorter than the window size."

/-- `plot_spectrogram(df, window=168, overlap=50)`: guard
`len(df) < window`, aggregate to the hourly grid, then a short-time
Fourier power matrix with `nperseg = window` and
`noverlap = int(window * (overlap / 100))`. -/
def plot_spectrogram (df : List (ℤ × ℝ)) (window overlap : ℕ) :
    Except String SpectrogramResult :=
  if df.length < window then Except.error specgramErrMsg
  else
    let ts := hourlySeries df
    let noverlap := window * overlap / 100
    let step := window - noverlap
    let nseg := (ts.length - window) / step + 1
    Except.ok
      { freqs := (List.range (window / 2 + 1)).map fun (f : ℕ) => (f : ℝ) / (window : ℝ)
        times := (List.range nseg).map fun (k : ℕ) =>
          (window : ℝ) / 2 + (k : ℝ) * (step : ℝ)
        power_db := (List.range nseg).map fun k =>
          (segmentPSD window ((ts.drop (k * step)).take window)).map fun p =>
            10 * Real.logb 10 (p + 1e-10) }

/-- Claim C8: `plot_spectrogram` raises its explicit error exactly when the
input is shorter than the window, and otherwise returns the computed
time-frequency power matrix (one frequency bin per index up to
`window/2`). -/
theorem C8_spectrogram_guard (df : List (ℤ × ℝ)) (window overlap : ℕ) :
    (plot_spectrogram df window overlap = Except.error specgramErrMsg ↔
      df.length < window) ∧
    (window ≤ df.length →
      ∃ r : SpectrogramResult,
        plot_spectrogram df window overlap = Except.ok r ∧
        r.freqs.length = window / 2 + 1) := by
  constructor
  · by_cases hlt : df.length < window
    · refine ⟨fun _ => hlt, fun _ => ?_⟩
      unfold plot_spectrogram
      rw [if_pos hlt]
    · constructor
      · intro habs
        unfold plot_spectrogram at habs
        rw [if_neg hlt] at habs
        exact absurd habs (by simp)
      · intro habs
        exact absurd habs hlt
  · intro h20
    unfold plot_spectrogram
    rw [if_neg (by omega)]
    refine ⟨_, rfl, ?_⟩
    rw [List.length_map, List.length_range]

theorem C8_spectrogram_guard_witness :
    1 ≤ ([((0 : ℤ), (0 : ℝ))] : List (ℤ × ℝ)).length ∧
    ∃ r : SpectrogramResult,
      plot_spectrogram [((0 : ℤ), (0 : ℝ))] 1 50 = Except.ok r ∧
      r.freqs.length = 1 / 2 + 1 :=
  ⟨by decide, (C8_spectrogram_guard [((0 : ℤ), (0 : ℝ))] 1 50).2 (by decide)⟩
